import Mathlib

/-!
Verification development for the time-aware channel core in
`src/channel/mod.rs` (bounded / unbounded / void channels of a
discrete-event simulator).

Shallow embedding conventions:
  * `Time` models the logical-time value of the external `dam_core` crate
    (not under `src/`); it is a totally ordered value with an infinite
    sentinel, `max`, `+ 1`, as the spec describes.
  * The two crossbeam byte-streams (data stream, response stream) are
    modelled as FIFO lists plus "other endpoint dropped" flags, following
    crossbeam's documented semantics: buffered messages stay readable
    after a disconnect; `try_recv` reports `Disconnected` only on an
    empty, disconnected stream.
  * The `Sender`, `Receiver` and shared `ViewStruct` state of one channel
    is collected into a single structure `Chan`; field names follow the
    source.
  * TLB reads (`sender_tlb`, `receiver_tlb`) and `wait_until` results are
    oracle parameters of the operations ("with an attached view"); a
    context's own TLB is constant while its thread executes an operation.
  * A Rust `assert!`/`unwrap` failure is the `panicked` outcome; an
    operation that suspends on a condition the current state cannot
    satisfy is the `blocked` outcome.
-/

set_option linter.unusedVariables false

/-- Modelled from the spec: `dam_core::time::Time` (not under `src/`), a
totally ordered monotone value with an "infinite" sentinel meaning
"never"; supports `max` and `+ 1`. -/
inductive Time where
  | fin : Nat → Time
  | inf : Time
deriving DecidableEq, Repr

/-- Boolean order on `Time`: `a.ble b` means `a ≤ b`. -/
def Time.ble : Time → Time → Bool
  | _, .inf => true
  | .inf, .fin _ => false
  | .fin a, .fin b => decide (a ≤ b)

/-- The `Ord::max` of two times. -/
def Time.max : Time → Time → Time
  | .inf, _ => .inf
  | .fin _, .inf => .inf
  | .fin a, .fin b => .fin (Nat.max a b)

/-- The `+ 1` bump used by `CheckBackAt(new_time + 1)`. -/
def Time.add1 : Time → Time
  | .fin a => .fin (a + 1)
  | .inf => .inf

/-- The `is_infinite` test. -/
def Time.isInfinite : Time → Bool
  | .inf => true
  | .fin _ => false

/-- `ChannelElement<T>`: a `(time, data)` pair. -/
structure ChannelElement (T : Type) where
  time : Time
  data : T
deriving DecidableEq

/-- `ChannelElement::update_time`: monotonically raises the stamp. -/
def ChannelElement.update_time (e : ChannelElement T) (new_time : Time) : ChannelElement T :=
  { e with time := Time.max e.time new_time }

/-- `SenderState<T>`: the sender's underlying variant. -/
inductive SenderState where
  | Open
  | Closed
  | Void
deriving DecidableEq

/-- `SendOptions`: the sender's capacity oracle. -/
inductive SendOptions where
  | Unknown
  | AvailableAt : Time → SendOptions
  | CheckBackAt : Time → SendOptions
  | Never
deriving DecidableEq

/-- `Recv<T>`: the receiver's head cache. -/
inductive Recv (T : Type) where
  | Something : ChannelElement T → Recv T
  | Nothing : Time → Recv T
  | Closed
  | Unknown
deriving DecidableEq

/-- Log events: `SendEvent::Send`, `SendEvent::Len`, `ReceiverEvent::Peek`,
`ReceiverEvent::Recv`, merged into one type; the first parameter is the
channel id. -/
inductive Event where
  | Send : Nat → Event
  | Len : Nat → Nat → Event
  | Peek : Nat → Event
  | Recv : Nat → Event
deriving DecidableEq

/-- Which fail-fast condition fired. -/
inductive PanicKind where
  | assertFail
  | streamError
  | closedEndpoint
  | unreachableHit
deriving DecidableEq

/-- Combined state of one channel: the shared `ViewStruct` (channel id and
atomic `current_send_receive_delta`), the two streams, the `Sender` fields
and the `Receiver` fields of `src/channel/mod.rs`.

Stream bookkeeping flags:
  * `dataDisc`: the sender's data-stream handle was dropped
    (`Sender::close`), so the receiver eventually observes `Disconnected`;
  * `recvClosed`: the receiver's data-stream handle was dropped
    (`Receiver::close`), so raw data-stream sends fail and receiver reads
    panic;
  * `respDisc`: the receiver's response-stream sending half is gone
    (receiver dropped), so the sender's response reads observe
    `Disconnected` once drained;
  * `senderDropped`: the sender's response-stream receiving half is gone
    (sender dropped), so the receiver's ack push fails (and is ignored). -/
structure Chan (T : Type) where
  channel_id : Nat
  capacity : Nat
  current_send_receive_delta : Nat
  dataq : List (ChannelElement T)
  respq : List Time
  underlying : SenderState
  send_receive_delta : Nat
  next_available : SendOptions
  head : Recv T
  recvClosed : Bool
  dataDisc : Bool
  respDisc : Bool
  senderDropped : Bool
deriving DecidableEq

/-- Result of one operation: normal return with the result value, the new
channel state and the emitted log events; a fail-fast panic; or a blocking
primitive that the current state cannot satisfy. -/
inductive Outcome (α : Type) (T : Type) where
  | ok : α → Chan T → List Event → Outcome α T
  | panicked : PanicKind → Outcome α T
  | blocked : Outcome α T
deriving DecidableEq

/-- Result of `Sender::under_send`. -/
inductive UnderSendRes (T : Type) where
  | sent : Chan T → UnderSendRes T
  | errRes
  | wouldBlock
deriving DecidableEq

variable {T : Type}

/-- `Sender::under_send`: `Open` does a raw bounded-stream send (an error
when the receiver handle is gone, blocking when the buffer is at
capacity), `Closed` is an immediate `SendError`, `Void` silently
succeeds. -/
def under_send (c : Chan T) (elem : ChannelElement T) : UnderSendRes T :=
  match c.underlying with
  | .Open =>
      if c.recvClosed then .errRes
      else if c.dataq.length < c.capacity then .sent { c with dataq := c.dataq ++ [elem] }
      else .wouldBlock
  | .Closed => .errRes
  | .Void => .sent c

/-- The non-blocking drain loop at the bottom of `Sender::update_srd`,
acting on the response queue: a timestamp `≤ send_time` decrements the
local count (panic, `none`, when it is zero — `assert!(srd > 0)`), a later
timestamp is taken out and becomes `AvailableAt`, an empty queue stops
(with `Never` when disconnected). -/
def drainList (send_time : Time) (disc : Bool) :
    List Time → Nat → Option (List Time × Nat × SendOptions)
  | [], srd => some ([], srd, if disc then .Never else .Unknown)
  | t :: rest, srd =>
      if t.ble send_time then
        if srd = 0 then none
        else drainList send_time disc rest (srd - 1)
      else some (rest, srd, .AvailableAt t)

/-- `Sender::update_srd` with the sender TLB passed as `stlb`. It resets
`next_available` to `Unknown`, asserts `shared ≤ local`, performs one
blocking response receive iff `local - shared > 0`, then drains
non-blockingly.  The source's `assert!(next_available == Unknown)` before
each `AvailableAt` write is trivially true (nothing wrote to it since the
reset) and is therefore not re-checked. -/
def update_srd (stlb : Time) (c : Chan T) : Outcome Unit T :=
  if c.current_send_receive_delta ≤ c.send_receive_delta then
    if c.send_receive_delta - c.current_send_receive_delta > 0 then
      match c.respq with
      | [] =>
          if c.respDisc then .ok () { c with next_available := .Never } []
          else .blocked
      | t :: rest =>
          if t.ble stlb then
            if c.send_receive_delta = 0 then .panicked .assertFail
            else
              match drainList stlb c.respDisc rest (c.send_receive_delta - 1) with
              | none => .panicked .assertFail
              | some (q2, srd2, na2) =>
                  .ok () { c with respq := q2, send_receive_delta := srd2, next_available := na2 } []
          else .ok () { c with respq := rest, next_available := .AvailableAt t } []
    else
      match drainList stlb c.respDisc c.respq c.send_receive_delta with
      | none => .panicked .assertFail
      | some (q2, srd2, na2) =>
          .ok () { c with respq := q2, send_receive_delta := srd2, next_available := na2 } []
  else .panicked .assertFail

/-- Steps 2–6 of `Sender::update_len`: `update_srd`, an early return when
below capacity, otherwise `receiver_view.wait_until(send_time)` (its
result is the oracle `waitT`), a second `update_srd`, and the
`CheckBackAt(new_time + 1)` fallback. -/
def update_len_rest (stlb waitT : Time) (c : Chan T) : Outcome Unit T :=
  match update_srd stlb c with
  | .ok _ c2 evs =>
      if c2.send_receive_delta < c2.capacity then .ok () c2 evs
      else
        match update_srd stlb c2 with
        | .ok _ c3 evs2 =>
            if c3.next_available = SendOptions.Unknown then
              .ok () { c3 with next_available := .CheckBackAt waitT.add1 } (evs ++ evs2)
            else .ok () c3 (evs ++ evs2)
        | .panicked k => .panicked k
        | .blocked => .blocked
  | .panicked k => .panicked k
  | .blocked => .blocked

/-- `Sender::update_len`: step 1 handles a cached `AvailableAt` promise
(materialize the slot when its time has passed, no-op return when it is
still in the future), then `update_len_rest`. -/
def update_len (stlb waitT : Time) (c : Chan T) : Outcome Unit T :=
  match c.next_available with
  | .AvailableAt t =>
      if t.ble stlb then
        if c.send_receive_delta = 0 then .panicked .assertFail
        else update_len_rest stlb waitT
          { c with next_available := .Unknown, send_receive_delta := c.send_receive_delta - 1 }
      else .ok () c []
  | _ => update_len_rest stlb waitT c

/-- `Sender::is_full`: `Void` is never full; below capacity is not full;
otherwise refresh via `update_len`, emit `Len(channel_id, local_delta)`
and compare again. -/
def is_full (stlb waitT : Time) (c : Chan T) : Outcome Bool T :=
  match c.underlying with
  | .Void => .ok false c []
  | _ =>
      if c.send_receive_delta < c.capacity then .ok false c []
      else
        match update_len stlb waitT c with
        | .ok _ c1 evs =>
            .ok (c1.send_receive_delta == c1.capacity) c1
              (evs ++ [Event.Len c1.channel_id c1.send_receive_delta])
        | .panicked k => .panicked k
        | .blocked => .blocked

/-- `Sender::send`: on `is_full`, `Err(next_available)`; otherwise the
three assertions (`local < capacity`, `elem.time ≥ sender TLB`,
fetch-add's prior shared value `< capacity`), the raw enqueue
(unwrapped), the local increment, and the `Send(channel_id)` event. -/
def send (stlb waitT : Time) (elem : ChannelElement T) (c : Chan T) :
    Outcome (Except SendOptions Unit) T :=
  match is_full stlb waitT c with
  | .ok true c1 evs => .ok (Except.error c1.next_available) c1 evs
  | .ok false c1 evs =>
      if c1.send_receive_delta < c1.capacity then
        if stlb.ble elem.time then
          if c1.current_send_receive_delta < c1.capacity then
            match under_send
                { c1 with current_send_receive_delta :=
                    c1.current_send_receive_delta + 1 } elem with
            | .sent c2 =>
                .ok (Except.ok ())
                  { c2 with send_receive_delta := c2.send_receive_delta + 1 }
                  (evs ++ [Event.Send c2.channel_id])
            | .errRes => .panicked .streamError
            | .wouldBlock => .blocked
          else .panicked .assertFail
        else .panicked .assertFail
      else .panicked .assertFail
  | .panicked k => .panicked k
  | .blocked => .blocked

/-- `Sender::close`: replaces the underlying state with `Closed`, dropping
the data-stream handle when one was held. -/
def sender_close (c : Chan T) : Chan T :=
  { c with underlying := SenderState.Closed
           dataDisc := (match c.underlying with | .Open => true | _ => c.dataDisc) }

/-- `Cleanable::cleanup` for `Sender`: calls `close`. -/
def sender_cleanup (c : Chan T) : Chan T := sender_close c

/-- `Receiver::close`: drops the receiver's data-stream handle; further
receiver reads panic. -/
def receiver_close (c : Chan T) : Chan T := { c with recvClosed := true }

/-- `Cleanable::cleanup` for `Receiver`: calls `close`. -/
def receiver_cleanup (c : Chan T) : Chan T := receiver_close c

/-- Dropping the whole `Sender` value: closes it and releases its
response-stream receiving half. -/
def sender_drop (c : Chan T) : Chan T := { sender_close c with senderDropped := true }

/-- Dropping the whole `Receiver` value: closes it and releases its
response-stream sending half. -/
def receiver_drop (c : Chan T) : Chan T := { receiver_close c with respDisc := true }

/-- `Receiver::try_update_head`: one non-blocking data-stream receive
(panic when the receiver endpoint is closed, as `under()` does); rewrites
`head` and reports whether a terminal state (`Something`/`Closed`) was
reached. -/
def try_update_head (nothing_time : Time) (c : Chan T) : Outcome Bool T :=
  if c.recvClosed then .panicked .closedEndpoint
  else
    match c.dataq with
    | d :: rest => .ok true { c with dataq := rest, head := Recv.Something d } []
    | [] =>
        if c.dataDisc then .ok true { c with head := Recv.Closed } []
        else if nothing_time.isInfinite then .ok true { c with head := Recv.Closed } []
        else .ok false { c with head := Recv.Nothing nothing_time } []

/-- The tail of `Receiver::peek` after the head-cache cases: the first
non-blocking receive tagged `Time::new(0)`, then
`sender_view.wait_until(recv_time)` (its result is the oracle `sigTime`),
the `sig_time ≥ recv_time` assertion, and the second non-blocking receive
tagged `sig_time`. -/
def peek_rest (rtlb sigTime : Time) (c : Chan T) (evs : List Event) : Outcome (Recv T) T :=
  match try_update_head (Time.fin 0) c with
  | .ok true c1 _ => .ok c1.head c1 evs
  | .ok false c1 _ =>
      if rtlb.ble sigTime then
        match try_update_head sigTime c1 with
        | .ok _ c2 _ => .ok c2.head c2 evs
        | .panicked k => .panicked k
        | .blocked => .blocked
      else .panicked .assertFail
  | .panicked k => .panicked k
  | .blocked => .blocked

/-- `Receiver::peek` with the receiver TLB passed as `rtlb`: emits
`Peek(channel_id)`, returns a still-valid cached head (`Something`,
`Closed`, or an unexpired `Nothing`), and otherwise refreshes through
`peek_rest`. -/
def peek (rtlb sigTime : Time) (c : Chan T) : Outcome (Recv T) T :=
  match c.head with
  | Recv.Nothing t =>
      if rtlb.ble t then .ok (Recv.Nothing t) c [Event.Peek c.channel_id]
      else peek_rest rtlb sigTime c [Event.Peek c.channel_id]
  | Recv.Unknown => peek_rest rtlb sigTime c [Event.Peek c.channel_id]
  | Recv.Something e => .ok (Recv.Something e) c [Event.Peek c.channel_id]
  | Recv.Closed => .ok Recv.Closed c [Event.Peek c.channel_id]

/-- `Receiver::peek_next_sync`: a cached `Something`/`Closed` is returned
as-is; otherwise one plain blocking data-stream receive rewrites the
head. -/
def peek_next_sync (c : Chan T) : Outcome (Recv T) T :=
  match c.head with
  | Recv.Something e => .ok (Recv.Something e) c []
  | Recv.Closed => .ok Recv.Closed c []
  | _ =>
      if c.recvClosed then .panicked .closedEndpoint
      else
        match c.dataq with
        | d :: rest =>
            .ok (Recv.Something d) { c with dataq := rest, head := Recv.Something d } []
        | [] =>
            if c.dataDisc then .ok Recv.Closed { c with head := Recv.Closed } []
            else .blocked

/-- `Receiver::recv`: `peek`, the `Recv(channel_id)` event, and on
`Something` the fetch-sub of the shared counter (prior value asserted
nonzero), the acknowledgement push `max(receiver TLB, elem.time)` with a
failed push ignored, and the head invalidation. -/
def recv (rtlb sigTime : Time) (c : Chan T) : Outcome (Recv T) T :=
  match peek rtlb sigTime c with
  | .ok res c1 evs =>
      match res with
      | Recv.Something e =>
          if c1.current_send_receive_delta = 0 then .panicked .assertFail
          else if c1.senderDropped then
            .ok res { c1 with
                current_send_receive_delta := c1.current_send_receive_delta - 1,
                head := Recv.Unknown } (evs ++ [Event.Recv c1.channel_id])
          else if c1.respq.length < c1.capacity then
            .ok res { c1 with
                current_send_receive_delta := c1.current_send_receive_delta - 1,
                respq := c1.respq ++ [Time.max rtlb e.time],
                head := Recv.Unknown } (evs ++ [Event.Recv c1.channel_id])
          else .blocked
      | Recv.Nothing _ => .ok res c1 (evs ++ [Event.Recv c1.channel_id])
      | Recv.Closed => .ok res c1 (evs ++ [Event.Recv c1.channel_id])
      | Recv.Unknown => .panicked .unreachableHit
  | .panicked k => .panicked k
  | .blocked => .blocked

/-- The maximum `usize` value, used as the capacity of unbounded and void
senders. -/
def usizeMax : Nat := 2 ^ 64 - 1

/-- The `bounded`/`bounded_with_flavor` factory: fresh streams of the
requested capacity, `send_receive_delta = 0` everywhere, `Unknown`
head and options. -/
def boundedChan (T : Type) (capacity : Nat) (id : Nat) : Chan T :=
  { channel_id := id, capacity := capacity, current_send_receive_delta := 0,
    dataq := [], respq := [], underlying := SenderState.Open,
    send_receive_delta := 0, next_available := SendOptions.Unknown,
    head := Recv.Unknown, recvClosed := false, dataDisc := false,
    respDisc := false, senderDropped := false }

/-- The `unbounded` factory: like `bounded` with `capacity = usize::MAX`. -/
def unboundedChan (T : Type) (id : Nat) : Chan T := boundedChan T usizeMax id

/-- The `void` factory: a lone sender whose underlying is `Void`, with
`capacity = usize::MAX` and a never-ready response stream. -/
def voidChan (T : Type) (id : Nat) : Chan T :=
  { boundedChan T usizeMax id with underlying := SenderState.Void }

/-! ### Helper measures and characterization lemmas -/

/-- Number of in-flight elements the receiver's head cache accounts for. -/
def headSome : Recv T → Nat
  | Recv.Something _ => 1
  | _ => 0

/-- One when a drained future acknowledgement is parked in `AvailableAt`. -/
def pendAvail : SendOptions → Nat
  | SendOptions.AvailableAt _ => 1
  | _ => 0

theorem drainList_srd_le (st : Time) (d : Bool) :
    ∀ (q : List Time) (srd : Nat) (q2 : List Time) (srd2 : Nat) (na2 : SendOptions),
      drainList st d q srd = some (q2, srd2, na2) → srd2 ≤ srd := by
  intro q
  induction q with
  | nil =>
      intro srd q2 srd2 na2 h
      simp only [drainList] at h
      injection h with h'
      injection h' with h1 h23
      injection h23 with h2 h3
      omega
  | cons t rest ih =>
      intro srd q2 srd2 na2 h
      simp only [drainList] at h
      split at h
      · split at h
        · simp at h
        · have := ih (srd - 1) q2 srd2 na2 h
          omega
      · injection h with h'
        injection h' with h1 h23
        injection h23 with h2 h3
        omega

theorem drainList_bound (st : Time) (d : Bool) :
    ∀ (q : List Time) (srd : Nat) (q2 : List Time) (srd2 : Nat) (na2 : SendOptions) (s : Nat),
      drainList st d q srd = some (q2, srd2, na2) →
      s + q.length ≤ srd → s + q2.length + pendAvail na2 ≤ srd2 := by
  intro q
  induction q with
  | nil =>
      intro srd q2 srd2 na2 s h hb
      simp only [drainList] at h
      injection h with h'
      injection h' with h1 h23
      injection h23 with h2 h3
      subst h1
      subst h2
      subst h3
      cases d <;> simp [pendAvail] <;> omega
  | cons t rest ih =>
      intro srd q2 srd2 na2 s h hb
      simp only [drainList] at h
      split at h
      · split at h
        · simp at h
        · have := ih (srd - 1) q2 srd2 na2 s h (by simp at hb; omega)
          omega
      · injection h with h'
        injection h' with h1 h23
        injection h23 with h2 h3
        subst h1
        subst h2
        subst h3
        simp only [pendAvail, List.length_cons] at hb ⊢
        omega

theorem update_srd_ok {stlb : Time} {c c2 : Chan T} {u : Unit} {evs : List Event}
    (h : update_srd stlb c = Outcome.ok u c2 evs) :
    evs = [] ∧
    ∃ q2 srd2 na2,
      c2 = { c with respq := q2, send_receive_delta := srd2, next_available := na2 } ∧
      srd2 ≤ c.send_receive_delta ∧
      (c.current_send_receive_delta + c.respq.length ≤ c.send_receive_delta →
        c.current_send_receive_delta + q2.length + pendAvail na2 ≤ srd2) := by
  unfold update_srd at h
  split at h
  · split at h
    · -- blocking receive branch
      split at h
      · -- respq = []
        rename_i heq
        split at h
        · injection h with h1 h2 h3
          subst h2
          subst h3
          refine ⟨rfl, c.respq, c.send_receive_delta, SendOptions.Never, by rw [heq], le_refl _, ?_⟩
          intro hb
          simp only [pendAvail]
          omega
        · exact Outcome.noConfusion h
      · -- respq = t :: rest
        rename_i t rest heq
        split at h
        · split at h
          · exact Outcome.noConfusion h
          · split at h
            · exact Outcome.noConfusion h
            · rename_i hres q2 srd2 na2 hdl
              injection h with h1 h2 h3
              subst h2
              subst h3
              refine ⟨rfl, q2, srd2, na2, rfl, ?_, ?_⟩
              · have := drainList_srd_le stlb c.respDisc rest (c.send_receive_delta - 1) q2 srd2 na2 hdl
                omega
              · intro hb
                rw [heq] at hb
                simp only [List.length_cons] at hb
                exact drainList_bound stlb c.respDisc rest (c.send_receive_delta - 1) q2 srd2 na2
                  c.current_send_receive_delta hdl (by omega)
        · injection h with h1 h2 h3
          subst h2
          subst h3
          refine ⟨rfl, rest, c.send_receive_delta, SendOptions.AvailableAt t, rfl, le_refl _, ?_⟩
          intro hb
          rw [heq] at hb
          simp only [List.length_cons] at hb
          simp only [pendAvail]
          omega
    · -- non-blocking drain only
      split at h
      · exact Outcome.noConfusion h
      · rename_i hres q2 srd2 na2 hdl
        injection h with h1 h2 h3
        subst h2
        subst h3
        refine ⟨rfl, q2, srd2, na2, rfl, ?_, ?_⟩
        · exact drainList_srd_le stlb c.respDisc c.respq c.send_receive_delta q2 srd2 na2 hdl
        · intro hb
          exact drainList_bound stlb c.respDisc c.respq c.send_receive_delta q2 srd2 na2
            c.current_send_receive_delta hdl hb
  · exact Outcome.noConfusion h

theorem update_len_rest_ok {stlb waitT : Time} {c c2 : Chan T} {u : Unit} {evs : List Event}
    (h : update_len_rest stlb waitT c = Outcome.ok u c2 evs) :
    ∃ q2 srd2 na2,
      c2 = { c with respq := q2, send_receive_delta := srd2, next_available := na2 } ∧
      srd2 ≤ c.send_receive_delta ∧
      (c.current_send_receive_delta + c.respq.length ≤ c.send_receive_delta →
        c.current_send_receive_delta + q2.length + pendAvail na2 ≤ srd2) := by
  unfold update_len_rest at h
  split at h
  · rename_i u1 c21 evs1 heq1
    obtain ⟨hevs1, q2, srd2, na2, hc21, hle, hbnd⟩ := update_srd_ok heq1
    subst hc21
    split at h
    · injection h with h1 h2 h3
      subst h2
      exact ⟨q2, srd2, na2, rfl, hle, hbnd⟩
    · split at h
      · rename_i u2 c3 evs2 heq2
        obtain ⟨hevs2, q3, srd3, na3, hc3, hle3, hbnd3⟩ := update_srd_ok heq2
        simp only at hc3 hle3 hbnd3
        subst hc3
        split at h
        · rename_i hna3
          injection h with h1 h2 h3
          subst h2
          refine ⟨q3, srd3, SendOptions.CheckBackAt waitT.add1, rfl, by omega, ?_⟩
          intro hb
          have h4 := hbnd hb
          have h5 := hbnd3 (by omega)
          simp only [hna3, pendAvail] at h5 ⊢
          omega
        · injection h with h1 h2 h3
          subst h2
          refine ⟨q3, srd3, na3, rfl, by omega, ?_⟩
          intro hb
          have h4 := hbnd hb
          exact hbnd3 (by omega)
      · exact Outcome.noConfusion h
      · exact Outcome.noConfusion h
  · exact Outcome.noConfusion h
  · exact Outcome.noConfusion h

theorem update_len_ok {stlb waitT : Time} {c c2 : Chan T} {u : Unit} {evs : List Event}
    (h : update_len stlb waitT c = Outcome.ok u c2 evs) :
    ∃ q2 srd2 na2,
      c2 = { c with respq := q2, send_receive_delta := srd2, next_available := na2 } ∧
      srd2 ≤ c.send_receive_delta ∧
      (c.current_send_receive_delta + c.respq.length + pendAvail c.next_available
          ≤ c.send_receive_delta →
        c.current_send_receive_delta + q2.length + pendAvail na2 ≤ srd2) := by
  unfold update_len at h
  split at h
  · rename_i t heq
    split at h
    · split at h
      · exact Outcome.noConfusion h
      · rename_i hz
        obtain ⟨q2, srd2, na2, hc2, hle, hbnd⟩ := update_len_rest_ok h
        simp only at hc2 hle hbnd
        subst hc2
        refine ⟨q2, srd2, na2, rfl, by omega, ?_⟩
        intro hb
        rw [heq] at hb
        simp only [pendAvail] at hb
        exact hbnd (by omega)
    · injection h with h1 h2 h3
      subst h2
      exact ⟨c.respq, c.send_receive_delta, c.next_available, rfl, le_refl _, fun hb => hb⟩
  · obtain ⟨q2, srd2, na2, hc2, hle, hbnd⟩ := update_len_rest_ok h
    subst hc2
    refine ⟨q2, srd2, na2, rfl, hle, ?_⟩
    intro hb
    exact hbnd (by omega)

theorem is_full_ok {stlb waitT : Time} {c c1 : Chan T} {b : Bool} {evs : List Event}
    (h : is_full stlb waitT c = Outcome.ok b c1 evs) :
    ∃ q2 srd2 na2,
      c1 = { c with respq := q2, send_receive_delta := srd2, next_available := na2 } ∧
      srd2 ≤ c.send_receive_delta ∧
      (c.current_send_receive_delta + c.respq.length + pendAvail c.next_available
          ≤ c.send_receive_delta →
        c.current_send_receive_delta + q2.length + pendAvail na2 ≤ srd2) := by
  unfold is_full at h
  split at h
  · injection h with h1 h2 h3
    subst h2
    exact ⟨c.respq, c.send_receive_delta, c.next_available, rfl, le_refl _, fun hb => hb⟩
  · split at h
    · injection h with h1 h2 h3
      subst h2
      exact ⟨c.respq, c.send_receive_delta, c.next_available, rfl, le_refl _, fun hb => hb⟩
    · split at h
      · rename_i u1 c21 evs1 heq1
        obtain ⟨q2, srd2, na2, hc2, hle, hbnd⟩ := update_len_ok heq1
        subst hc2
        injection h with h1 h2 h3
        subst h2
        exact ⟨q2, srd2, na2, rfl, hle, hbnd⟩
      · exact Outcome.noConfusion h
      · exact Outcome.noConfusion h

theorem try_update_head_ok {nt : Time} {c c1 : Chan T} {b : Bool} {evs : List Event}
    (h : try_update_head nt c = Outcome.ok b c1 evs) :
    evs = [] ∧
    ∃ dq hd,
      c1 = { c with dataq := dq, head := hd } ∧
      hd ≠ Recv.Unknown ∧
      (b = false → hd = Recv.Nothing nt ∧ dq = c.dataq) ∧
      (dq = c.dataq ∨ ∃ e rest, c.dataq = e :: rest ∧ dq = rest ∧ hd = Recv.Something e) ∧
      (headSome c.head = 0 → dq.length + headSome hd = c.dataq.length + headSome c.head) := by
  unfold try_update_head at h
  split at h
  · exact Outcome.noConfusion h
  · split at h
    · rename_i d rest heq
      injection h with h1 h2 h3
      subst h2
      subst h3
      refine ⟨rfl, rest, Recv.Something d, rfl, by simp, ?_, ?_, ?_⟩
      · intro hb
        rw [← h1] at hb
        exact Bool.noConfusion hb
      · exact Or.inr ⟨d, rest, heq, rfl, rfl⟩
      · intro hh
        rw [heq, hh]
        simp [headSome]
    · rename_i heq
      split at h
      · injection h with h1 h2 h3
        subst h2
        subst h3
        refine ⟨rfl, c.dataq, Recv.Closed, rfl, by simp, ?_, Or.inl rfl, ?_⟩
        · intro hb
          rw [← h1] at hb
          exact Bool.noConfusion hb
        · intro hh
          rw [hh]
          simp [headSome]
      · split at h
        · injection h with h1 h2 h3
          subst h2
          subst h3
          refine ⟨rfl, c.dataq, Recv.Closed, rfl, by simp, ?_, Or.inl rfl, ?_⟩
          · intro hb
            rw [← h1] at hb
            exact Bool.noConfusion hb
          · intro hh
            rw [hh]
            simp [headSome]
        · injection h with h1 h2 h3
          subst h2
          subst h3
          refine ⟨rfl, c.dataq, Recv.Nothing nt, rfl, by simp, fun _ => ⟨rfl, rfl⟩,
            Or.inl rfl, ?_⟩
          intro hh
          rw [hh]
          simp [headSome]

theorem peek_rest_ok_char {rtlb sigTime : Time} {c c1 : Chan T} {res : Recv T}
    {evs0 evs : List Event}
    (hHead : headSome c.head = 0)
    (h : peek_rest rtlb sigTime c evs0 = Outcome.ok res c1 evs) :
    res = c1.head ∧ res ≠ Recv.Unknown ∧ evs = evs0 ∧
    ∃ dq hd,
      c1 = { c with dataq := dq, head := hd } ∧
      (dq = c.dataq ∨ ∃ e rest, c.dataq = e :: rest ∧ dq = rest) ∧
      dq.length + headSome hd = c.dataq.length + headSome c.head := by
  unfold peek_rest at h
  split at h
  · rename_i c1a evs1 heq1
    obtain ⟨hevs1, dq, hd, hc1a, hne, hfalse, hpop, hsum⟩ := try_update_head_ok heq1
    injection h with h1 h2 h3
    subst h2
    subst h3
    subst hc1a
    refine ⟨h1.symm, by rw [← h1]; simpa using hne, rfl, dq, hd, rfl, ?_, hsum hHead⟩
    rcases hpop with hp | ⟨e, rest, he, hr, _⟩
    · exact Or.inl hp
    · exact Or.inr ⟨e, rest, he, hr⟩
  · rename_i c1a evs1 heq1
    obtain ⟨hevs1, dq1, hd1, hc1a, hne1, hfalse1, hpop1, hsum1⟩ := try_update_head_ok heq1
    obtain ⟨hhd1, hdq1⟩ := hfalse1 rfl
    subst hc1a
    split at h
    · split at h
      · rename_i b2 c2a evs2 heq2
        obtain ⟨hevs2, dq2, hd2, hc2a, hne2, hfalse2, hpop2, hsum2⟩ := try_update_head_ok heq2
        simp only at hc2a hpop2
        subst hc2a
        injection h with h1 h2 h3
        subst h2
        subst h3
        have hs : dq2.length + headSome hd2 = dq1.length + headSome hd1 :=
          hsum2 (show headSome hd1 = 0 by rw [hhd1]; rfl)
        refine ⟨h1.symm, by rw [← h1]; simpa using hne2, rfl, dq2, hd2, rfl, ?_, ?_⟩
        · rcases hpop2 with hp | ⟨e, rest, he, hr, _⟩
          · rw [hp, hdq1]
            exact Or.inl rfl
          · rw [hdq1] at he
            exact Or.inr ⟨e, rest, he, hr⟩
        · rw [hdq1, hhd1] at hs
          rw [hHead]
          exact hs
      · exact Outcome.noConfusion h
      · exact Outcome.noConfusion h
    · exact Outcome.noConfusion h
  · exact Outcome.noConfusion h
  · exact Outcome.noConfusion h

theorem peek_ok_char {rtlb sigTime : Time} {c c1 : Chan T} {res : Recv T} {evs : List Event}
    (h : peek rtlb sigTime c = Outcome.ok res c1 evs) :
    res = c1.head ∧ res ≠ Recv.Unknown ∧ evs = [Event.Peek c.channel_id] ∧
    ∃ dq hd,
      c1 = { c with dataq := dq, head := hd } ∧
      (dq = c.dataq ∨ ∃ e rest, c.dataq = e :: rest ∧ dq = rest) ∧
      dq.length + headSome hd = c.dataq.length + headSome c.head := by
  unfold peek at h
  split at h
  · rename_i t heq
    split at h
    · injection h with h1 h2 h3
      subst h2
      subst h3
      exact ⟨by rw [← h1, heq], by rw [← h1]; simp, rfl, c.dataq, c.head,
        rfl, Or.inl rfl, rfl⟩
    · exact peek_rest_ok_char (by rw [heq]; rfl) h
  · rename_i heq
    exact peek_rest_ok_char (by rw [heq]; rfl) h
  · rename_i e heq
    injection h with h1 h2 h3
    subst h2
    subst h3
    exact ⟨by rw [← h1, heq], by rw [← h1]; simp, rfl, c.dataq, c.head,
      rfl, Or.inl rfl, rfl⟩
  · rename_i heq
    injection h with h1 h2 h3
    subst h2
    subst h3
    exact ⟨by rw [← h1, heq], by rw [← h1]; simp, rfl, c.dataq, c.head,
      rfl, Or.inl rfl, rfl⟩

theorem peek_next_sync_ok_char {c c1 : Chan T} {res : Recv T} {evs : List Event}
    (h : peek_next_sync c = Outcome.ok res c1 evs) :
    res = c1.head ∧ res ≠ Recv.Unknown ∧ evs = [] ∧
    ∃ dq hd,
      c1 = { c with dataq := dq, head := hd } ∧
      (dq = c.dataq ∨ ∃ e rest, c.dataq = e :: rest ∧ dq = rest) ∧
      dq.length + headSome hd = c.dataq.length + headSome c.head := by
  unfold peek_next_sync at h
  split at h
  · rename_i e heq
    injection h with h1 h2 h3
    subst h2
    subst h3
    exact ⟨by rw [← h1, heq], by rw [← h1]; simp, rfl, c.dataq, c.head,
      rfl, Or.inl rfl, rfl⟩
  · rename_i heq
    injection h with h1 h2 h3
    subst h2
    subst h3
    exact ⟨by rw [← h1, heq], by rw [← h1]; simp, rfl, c.dataq, c.head,
      rfl, Or.inl rfl, rfl⟩
  · rename_i hne1 hne2
    have hh0 : headSome c.head = 0 := by
      cases hh : c.head with
      | Something e => exact (hne1 e hh).elim
      | Nothing t => rfl
      | Closed => rfl
      | Unknown => rfl
    split at h
    · exact Outcome.noConfusion h
    · split at h
      · rename_i d rest heq
        injection h with h1 h2 h3
        subst h2
        subst h3
        refine ⟨h1.symm, by rw [← h1]; simp, rfl, rest, Recv.Something d, rfl,
          Or.inr ⟨d, rest, heq, rfl⟩, ?_⟩
        rw [heq, hh0]
        simp [headSome]
      · split at h
        · injection h with h1 h2 h3
          subst h2
          subst h3
          refine ⟨h1.symm, by rw [← h1]; simp, rfl, c.dataq, Recv.Closed, rfl,
            Or.inl rfl, ?_⟩
          rw [hh0]
          simp [headSome]
        · exact Outcome.noConfusion h

/-! ### Operation-level transition system -/

/-- One completed public operation on a channel created by `bounded`,
with that operation's TLB readings and `wait_until` results supplied as
oracle values.  An operation that panics or that stays blocked yields no
new boundary state. -/
inductive Step : Chan T → Chan T → Prop where
  | ofSend (stlb waitT : Time) (elem : ChannelElement T) (c c2 : Chan T)
      (r : Except SendOptions Unit) (evs : List Event)
      (h : send stlb waitT elem c = Outcome.ok r c2 evs) : Step c c2
  | ofIsFull (stlb waitT : Time) (c c2 : Chan T) (b : Bool) (evs : List Event)
      (h : is_full stlb waitT c = Outcome.ok b c2 evs) : Step c c2
  | ofUpdateLen (stlb waitT : Time) (c c2 : Chan T) (evs : List Event)
      (h : update_len stlb waitT c = Outcome.ok () c2 evs) : Step c c2
  | ofUpdateSrd (stlb : Time) (c c2 : Chan T) (evs : List Event)
      (h : update_srd stlb c = Outcome.ok () c2 evs) : Step c c2
  | ofPeek (rtlb sigTime : Time) (c c2 : Chan T) (res : Recv T) (evs : List Event)
      (h : peek rtlb sigTime c = Outcome.ok res c2 evs) : Step c c2
  | ofPeekNextSync (c c2 : Chan T) (res : Recv T) (evs : List Event)
      (h : peek_next_sync c = Outcome.ok res c2 evs) : Step c c2
  | ofRecv (rtlb sigTime : Time) (c c2 : Chan T) (res : Recv T) (evs : List Event)
      (h : recv rtlb sigTime c = Outcome.ok res c2 evs) : Step c c2
  | ofSenderClose (c : Chan T) : Step c (sender_close c)
  | ofSenderCleanup (c : Chan T) : Step c (sender_cleanup c)
  | ofReceiverClose (c : Chan T) : Step c (receiver_close c)
  | ofReceiverCleanup (c : Chan T) : Step c (receiver_cleanup c)
  | ofSenderDrop (c : Chan T) : Step c (sender_drop c)
  | ofReceiverDrop (c : Chan T) : Step c (receiver_drop c)

/-- States reachable by interleaving completed operations from a fresh
`bounded(capacity)` channel. -/
def Reachable (capacity id : Nat) (c : Chan T) : Prop :=
  Relation.ReflTransGen Step (boundedChan T capacity id) c

/-- The channel invariant: fixed capacity; the sender is not `Void`
(bounded channel); the local count is at most the capacity; the shared
count plus undrained acknowledgements (queued or parked in `AvailableAt`)
is at most the local count; and the shared count equals the in-flight
elements (data queue plus cached head). -/
def ChanInv (capacity : Nat) (c : Chan T) : Prop :=
  c.capacity = capacity ∧
  c.underlying ≠ SenderState.Void ∧
  c.send_receive_delta ≤ capacity ∧
  c.current_send_receive_delta + c.respq.length + pendAvail c.next_available
      ≤ c.send_receive_delta ∧
  c.current_send_receive_delta = c.dataq.length + headSome c.head

theorem Inv_update {capacity : Nat} {c : Chan T} {q2 : List Time} {srd2 : Nat}
    {na2 : SendOptions} (hInv : ChanInv capacity c)
    (hle : srd2 ≤ c.send_receive_delta)
    (hbnd : c.current_send_receive_delta + q2.length + pendAvail na2 ≤ srd2) :
    ChanInv capacity { c with respq := q2, send_receive_delta := srd2, next_available := na2 } := by
  obtain ⟨h1, h2, h3, h4, h5⟩ := hInv
  refine ⟨h1, h2, ?_, hbnd, h5⟩
  show srd2 ≤ capacity
  omega

theorem update_srd_inv {stlb : Time} {c c2 : Chan T} {u : Unit} {evs : List Event}
    {capacity : Nat} (h : update_srd stlb c = Outcome.ok u c2 evs)
    (hInv : ChanInv capacity c) : ChanInv capacity c2 := by
  obtain ⟨hevs, q2, srd2, na2, hc2, hle, hbnd⟩ := update_srd_ok h
  subst hc2
  exact Inv_update hInv hle (hbnd (by obtain ⟨h1, h2, h3, h4, h5⟩ := hInv; omega))

theorem update_len_inv {stlb waitT : Time} {c c2 : Chan T} {u : Unit} {evs : List Event}
    {capacity : Nat} (h : update_len stlb waitT c = Outcome.ok u c2 evs)
    (hInv : ChanInv capacity c) : ChanInv capacity c2 := by
  obtain ⟨q2, srd2, na2, hc2, hle, hbnd⟩ := update_len_ok h
  subst hc2
  exact Inv_update hInv hle (hbnd hInv.2.2.2.1)

theorem is_full_inv {stlb waitT : Time} {c c1 : Chan T} {b : Bool} {evs : List Event}
    {capacity : Nat} (h : is_full stlb waitT c = Outcome.ok b c1 evs)
    (hInv : ChanInv capacity c) : ChanInv capacity c1 := by
  obtain ⟨q2, srd2, na2, hc1, hle, hbnd⟩ := is_full_ok h
  subst hc1
  exact Inv_update hInv hle (hbnd hInv.2.2.2.1)

theorem send_inv {stlb waitT : Time} {elem : ChannelElement T} {c c2 : Chan T}
    {r : Except SendOptions Unit} {evs : List Event} {capacity : Nat}
    (h : send stlb waitT elem c = Outcome.ok r c2 evs)
    (hInv : ChanInv capacity c) : ChanInv capacity c2 := by
  unfold send at h
  split at h
  · rename_i c1 evs1 heq1
    injection h with h1 h2 h3
    subst h2
    exact is_full_inv heq1 hInv
  · rename_i c1 evs1 heq1
    have hInv1 := is_full_inv heq1 hInv
    split at h
    · split at h
      · split at h
        · split at h
          · rename_i hsrd hble hcsrd c2a hsent
            injection h with h1 h2 h3
            subst h2
            unfold under_send at hsent
            split at hsent
            · split at hsent
              · exact UnderSendRes.noConfusion hsent
              · split at hsent
                · injection hsent with h4
                  subst h4
                  obtain ⟨i1, i2, i3, i4, i5⟩ := hInv1
                  refine ⟨i1, i2, ?_, ?_, ?_⟩
                  · show c1.send_receive_delta + 1 ≤ capacity
                    omega
                  · show c1.current_send_receive_delta + 1 + c1.respq.length +
                        pendAvail c1.next_available ≤ c1.send_receive_delta + 1
                    omega
                  · show c1.current_send_receive_delta + 1 =
                        (c1.dataq ++ [elem]).length + headSome c1.head
                    simp only [List.length_append, List.length_cons, List.length_nil]
                    omega
                · exact UnderSendRes.noConfusion hsent
            · exact UnderSendRes.noConfusion hsent
            · rename_i hvoid
              exact absurd hvoid hInv1.2.1
          · exact Outcome.noConfusion h
          · exact Outcome.noConfusion h
        · exact Outcome.noConfusion h
      · exact Outcome.noConfusion h
    · exact Outcome.noConfusion h
  · exact Outcome.noConfusion h
  · exact Outcome.noConfusion h

theorem peek_inv {rtlb sigTime : Time} {c c1 : Chan T} {res : Recv T} {evs : List Event}
    {capacity : Nat} (h : peek rtlb sigTime c = Outcome.ok res c1 evs)
    (hInv : ChanInv capacity c) : ChanInv capacity c1 := by
  obtain ⟨hres, hne, hevs, dq, hd, hc1, hpop, hsum⟩ := peek_ok_char h
  subst hc1
  obtain ⟨h1, h2, h3, h4, h5⟩ := hInv
  refine ⟨h1, h2, h3, h4, ?_⟩
  show c.current_send_receive_delta = dq.length + headSome hd
  omega

theorem peek_next_sync_inv {c c1 : Chan T} {res : Recv T} {evs : List Event}
    {capacity : Nat} (h : peek_next_sync c = Outcome.ok res c1 evs)
    (hInv : ChanInv capacity c) : ChanInv capacity c1 := by
  obtain ⟨hres, hne, hevs, dq, hd, hc1, hpop, hsum⟩ := peek_next_sync_ok_char h
  subst hc1
  obtain ⟨h1, h2, h3, h4, h5⟩ := hInv
  refine ⟨h1, h2, h3, h4, ?_⟩
  show c.current_send_receive_delta = dq.length + headSome hd
  omega

theorem recv_inv {rtlb sigTime : Time} {c c2 : Chan T} {res : Recv T} {evs : List Event}
    {capacity : Nat} (h : recv rtlb sigTime c = Outcome.ok res c2 evs)
    (hInv : ChanInv capacity c) : ChanInv capacity c2 := by
  unfold recv at h
  split at h
  · rename_i res1 c1 evs1 heq1
    have hInv1 := peek_inv heq1 hInv
    obtain ⟨hres, hneu, hevs, dq, hd, hc1, hpop, hsum⟩ := peek_ok_char heq1
    split at h
    · rename_i e0
      split at h
      · exact Outcome.noConfusion h
      · rename_i hcz
        split at h
        · injection h with h1 h2 h3
          subst h2
          obtain ⟨i1, i2, i3, i4, i5⟩ := hInv1
          have hhd : headSome c1.head = 1 := by
            rw [← hres]
            rfl
          refine ⟨i1, i2, i3, ?_, ?_⟩
          · show c1.current_send_receive_delta - 1 + c1.respq.length +
                pendAvail c1.next_available ≤ c1.send_receive_delta
            omega
          · show c1.current_send_receive_delta - 1 =
                c1.dataq.length + headSome (Recv.Unknown : Recv T)
            simp only [headSome]
            omega
        · split at h
          · injection h with h1 h2 h3
            subst h2
            obtain ⟨i1, i2, i3, i4, i5⟩ := hInv1
            have hhd : headSome c1.head = 1 := by
              rw [← hres]
              rfl
            refine ⟨i1, i2, i3, ?_, ?_⟩
            · show c1.current_send_receive_delta - 1 +
                  (c1.respq ++ [Time.max rtlb e0.time]).length +
                  pendAvail c1.next_available ≤ c1.send_receive_delta
              simp only [List.length_append, List.length_cons, List.length_nil]
              omega
            · show c1.current_send_receive_delta - 1 =
                  c1.dataq.length + headSome (Recv.Unknown : Recv T)
              simp only [headSome]
              omega
          · exact Outcome.noConfusion h
    · injection h with h1 h2 h3
      subst h2
      exact hInv1
    · injection h with h1 h2 h3
      subst h2
      exact hInv1
    · exact Outcome.noConfusion h
  · exact Outcome.noConfusion h
  · exact Outcome.noConfusion h

theorem close_drop_inv {c : Chan T} {capacity : Nat} (hInv : ChanInv capacity c) :
    ChanInv capacity (sender_close c) ∧ ChanInv capacity (receiver_close c) ∧
    ChanInv capacity (sender_drop c) ∧ ChanInv capacity (receiver_drop c) := by
  obtain ⟨h1, h2, h3, h4, h5⟩ := hInv
  refine ⟨⟨h1, ?_, h3, h4, h5⟩, ⟨h1, h2, h3, h4, h5⟩, ⟨h1, ?_, h3, h4, h5⟩,
    ⟨h1, h2, h3, h4, h5⟩⟩
  · intro hcontra
    exact SenderState.noConfusion hcontra
  · intro hcontra
    exact SenderState.noConfusion hcontra

theorem inv_step {c c2 : Chan T} {capacity : Nat} (hs : Step c c2)
    (hInv : ChanInv capacity c) : ChanInv capacity c2 := by
  cases hs with
  | ofSend stlb waitT elem c c2 r evs h => exact send_inv h hInv
  | ofIsFull stlb waitT c c2 b evs h => exact is_full_inv h hInv
  | ofUpdateLen stlb waitT c c2 evs h => exact update_len_inv h hInv
  | ofUpdateSrd stlb c c2 evs h => exact update_srd_inv h hInv
  | ofPeek rtlb sigTime c c2 res evs h => exact peek_inv h hInv
  | ofPeekNextSync c c2 res evs h => exact peek_next_sync_inv h hInv
  | ofRecv rtlb sigTime c c2 res evs h => exact recv_inv h hInv
  | ofSenderClose c => exact (close_drop_inv hInv).1
  | ofSenderCleanup c => exact (close_drop_inv hInv).1
  | ofReceiverClose c => exact (close_drop_inv hInv).2.1
  | ofReceiverCleanup c => exact (close_drop_inv hInv).2.1
  | ofSenderDrop c => exact (close_drop_inv hInv).2.2.1
  | ofReceiverDrop c => exact (close_drop_inv hInv).2.2.2

theorem inv_boundedChan (capacity id : Nat) : ChanInv capacity (boundedChan T capacity id) := by
  refine ⟨rfl, ?_, Nat.zero_le _, ?_, rfl⟩
  · intro hcontra
    exact SenderState.noConfusion hcontra
  · exact Nat.le_refl 0

theorem inv_reachable {capacity id : Nat} {c : Chan T} (h : Reachable capacity id c) :
    ChanInv capacity c := by
  induction h with
  | refl => exact inv_boundedChan capacity id
  | tail hsteps hstep ih => exact inv_step hstep ih

/-! ### Claim theorems -/

/-- C2: for every bounded channel of capacity `C`, in every reachable state
of any interleaving of completed sender operations (`send`, `is_full`,
`update_len`, `update_srd`) and receiver operations (`peek`, `recv`, and
the close/drop operations), the shared `current_send_receive_delta`
counter never exceeds `C`: `send` increments it only under the asserted
capacity checks, and `recv` only decrements it. -/
theorem claim2_capacity_bound {capacity id : Nat} {c : Chan T}
    (h : Reachable capacity id c) : c.current_send_receive_delta ≤ capacity := by
  obtain ⟨h1, h2, h3, h4, h5⟩ := inv_reachable h
  omega

theorem claim2_capacity_bound_witness :
    (boundedChan Nat 2 0).current_send_receive_delta ≤ 2 :=
  claim2_capacity_bound Relation.ReflTransGen.refl

/-- C8: in every reachable state at operation boundaries of any
sender/receiver interleaving, the sender's local `send_receive_delta` is
at least the shared `current_send_receive_delta`, so the assertion at the
top of `update_srd` never fails. -/
theorem claim8_local_ge_shared {capacity id : Nat} {c : Chan T}
    (h : Reachable capacity id c) :
    c.current_send_receive_delta ≤ c.send_receive_delta := by
  obtain ⟨h1, h2, h3, h4, h5⟩ := inv_reachable h
  omega

theorem claim8_local_ge_shared_witness :
    (boundedChan Nat 1 3).current_send_receive_delta ≤
      (boundedChan Nat 1 3).send_receive_delta :=
  claim8_local_ge_shared Relation.ReflTransGen.refl

/-- C10: neither `peek` nor `peek_next_sync` modifies the shared counter,
the response stream, or any sender-side state; the only receiver fields
either may change are the head cache and the data stream it consumes
from, so repeated peeks grant the sender no capacity. -/
theorem claim10_peek_frame :
    (∀ (rtlb sigTime : Time) (c c1 : Chan T) (res : Recv T) (evs : List Event),
      peek rtlb sigTime c = Outcome.ok res c1 evs →
        c1.current_send_receive_delta = c.current_send_receive_delta ∧
        c1.respq = c.respq ∧
        c1.send_receive_delta = c.send_receive_delta ∧
        c1.next_available = c.next_available ∧
        c1.capacity = c.capacity ∧
        c1.underlying = c.underlying ∧
        c1.channel_id = c.channel_id ∧
        c1.recvClosed = c.recvClosed ∧
        c1.dataDisc = c.dataDisc ∧
        c1.respDisc = c.respDisc ∧
        c1.senderDropped = c.senderDropped ∧
        (c1.dataq = c.dataq ∨ ∃ e rest, c.dataq = e :: rest ∧ c1.dataq = rest)) ∧
    (∀ (c c1 : Chan T) (res : Recv T) (evs : List Event),
      peek_next_sync c = Outcome.ok res c1 evs →
        c1.current_send_receive_delta = c.current_send_receive_delta ∧
        c1.respq = c.respq ∧
        c1.send_receive_delta = c.send_receive_delta ∧
        c1.next_available = c.next_available ∧
        c1.capacity = c.capacity ∧
        c1.underlying = c.underlying ∧
        c1.channel_id = c.channel_id ∧
        c1.recvClosed = c.recvClosed ∧
        c1.dataDisc = c.dataDisc ∧
        c1.respDisc = c.respDisc ∧
        c1.senderDropped = c.senderDropped ∧
        (c1.dataq = c.dataq ∨ ∃ e rest, c.dataq = e :: rest ∧ c1.dataq = rest)) := by
  constructor
  · intro rtlb sigTime c c1 res evs h
    obtain ⟨hres, hne, hevs, dq, hd, hc1, hpop, hsum⟩ := peek_ok_char h
    subst hc1
    refine ⟨rfl, rfl, rfl, rfl, rfl, rfl, rfl, rfl, rfl, rfl, rfl, ?_⟩
    rcases hpop with hp | ⟨e, rest, he, hr⟩
    · exact Or.inl hp
    · exact Or.inr ⟨e, rest, he, hr⟩
  · intro c c1 res evs h
    obtain ⟨hres, hne, hevs, dq, hd, hc1, hpop, hsum⟩ := peek_next_sync_ok_char h
    subst hc1
    refine ⟨rfl, rfl, rfl, rfl, rfl, rfl, rfl, rfl, rfl, rfl, rfl, ?_⟩
    rcases hpop with hp | ⟨e, rest, he, hr⟩
    · exact Or.inl hp
    · exact Or.inr ⟨e, rest, he, hr⟩

theorem claim10_peek_frame_witness :
    ({ boundedChan Nat 1 0 with head := Recv.Nothing (Time.fin 0) } : Chan Nat).respq =
      (boundedChan Nat 1 0).respq :=
  (claim10_peek_frame.1 (Time.fin 0) (Time.fin 0) (boundedChan Nat 1 0)
    { boundedChan Nat 1 0 with head := Recv.Nothing (Time.fin 0) }
    (Recv.Nothing (Time.fin 0)) [Event.Peek 0] (by decide)).2.1

/-- C9: `cleanup` aliases `close`; `close` replaces the underlying stream
handle by the `Closed` state; and a subsequent `send` on the `Closed`
state whose capacity check does not report full fails with the error
signalled by the stream layer (the unwrapped `SendError`) instead of
enqueuing. -/
theorem claim9_close :
    (∀ c : Chan T, sender_cleanup c = sender_close c) ∧
    (∀ c : Chan T, (sender_close c).underlying = SenderState.Closed) ∧
    (∀ (stlb waitT : Time) (elem : ChannelElement T) (c c1 : Chan T) (evs : List Event),
      c.underlying = SenderState.Closed →
      is_full stlb waitT c = Outcome.ok false c1 evs →
      c1.send_receive_delta < c1.capacity →
      stlb.ble elem.time = true →
      c1.current_send_receive_delta < c1.capacity →
      send stlb waitT elem c = Outcome.panicked PanicKind.streamError) := by
  refine ⟨fun c => rfl, fun c => rfl, ?_⟩
  intro stlb waitT elem c c1 evs hclosed hfull h1 h2 h3
  obtain ⟨q2, srd2, na2, hc1, hle, hbnd⟩ := is_full_ok hfull
  have hund : ({ c1 with current_send_receive_delta := c1.current_send_receive_delta + 1 }
      : Chan T).underlying = SenderState.Closed := by
    subst hc1
    exact hclosed
  have hu : under_send
      { c1 with current_send_receive_delta := c1.current_send_receive_delta + 1 } elem =
      UnderSendRes.errRes := by
    unfold under_send
    rw [hund]
  unfold send
  split
  · rename_i c1' evs' heq'
    rw [hfull] at heq'
    injection heq' with hb hc he
    exact Bool.noConfusion hb
  · rename_i c1' evs' heq'
    rw [hfull] at heq'
    injection heq' with hb hc he
    subst hc
    subst he
    rw [if_pos h1, if_pos h2, if_pos h3, hu]
  · rename_i k heq'
    rw [hfull] at heq'
    exact Outcome.noConfusion heq'
  · rename_i heq'
    rw [hfull] at heq'
    exact Outcome.noConfusion heq'

theorem claim9_close_witness :
    send (Time.fin 0) (Time.fin 0) ⟨Time.fin 0, (0 : Nat)⟩
      { boundedChan Nat 2 0 with underlying := SenderState.Closed } =
      Outcome.panicked PanicKind.streamError :=
  claim9_close.2.2 (Time.fin 0) (Time.fin 0) ⟨Time.fin 0, (0 : Nat)⟩
    { boundedChan Nat 2 0 with underlying := SenderState.Closed }
    { boundedChan Nat 2 0 with underlying := SenderState.Closed } []
    rfl (by decide) (by decide) (by decide) (by decide)

/-- C1: for a bounded sender with an attached view, if `is_full` reports
full then `send` returns `Err` carrying the refreshed `next_available`
without enqueuing; if not full, then under the asserted preconditions
(`elem.time ≥ sender TLB`, `send_receive_delta < capacity`, and the
shared-counter check, with room on the raw stream) `send` enqueues the
element, increments both the shared counter and the local delta by one,
emits `Send(channel_id)`, and returns `Ok`. -/
theorem claim1_send :
    (∀ (stlb waitT : Time) (elem : ChannelElement T) (c c1 : Chan T) (evs : List Event),
      is_full stlb waitT c = Outcome.ok true c1 evs →
      send stlb waitT elem c = Outcome.ok (Except.error c1.next_available) c1 evs ∧
      c1.dataq = c.dataq) ∧
    (∀ (stlb waitT : Time) (elem : ChannelElement T) (c c1 : Chan T) (evs : List Event),
      c.underlying = SenderState.Open →
      c.recvClosed = false →
      is_full stlb waitT c = Outcome.ok false c1 evs →
      stlb.ble elem.time = true →
      c1.send_receive_delta < c1.capacity →
      c1.current_send_receive_delta < c1.capacity →
      c1.dataq.length < c1.capacity →
      send stlb waitT elem c =
        Outcome.ok (Except.ok ())
          { c1 with
            current_send_receive_delta := c1.current_send_receive_delta + 1,
            dataq := c1.dataq ++ [elem],
            send_receive_delta := c1.send_receive_delta + 1 }
          (evs ++ [Event.Send c.channel_id])) := by
  constructor
  · intro stlb waitT elem c c1 evs hfull
    obtain ⟨q2, srd2, na2, hc1, hle, hbnd⟩ := is_full_ok hfull
    constructor
    · unfold send
      split
      · rename_i c1' evs' heq'
        rw [hfull] at heq'
        injection heq' with hb hc he
        subst hc
        subst he
        rfl
      · rename_i c1' evs' heq'
        rw [hfull] at heq'
        injection heq' with hb hc he
        exact Bool.noConfusion hb
      · rename_i k heq'
        rw [hfull] at heq'
        exact Outcome.noConfusion heq'
      · rename_i heq'
        rw [hfull] at heq'
        exact Outcome.noConfusion heq'
    · subst hc1
      rfl
  · intro stlb waitT elem c c1 evs hopen hrc hfull hble h1 h2 h3
    obtain ⟨q2, srd2, na2, hc1, hle, hbnd⟩ := is_full_ok hfull
    have hund : under_send
        { c1 with current_send_receive_delta := c1.current_send_receive_delta + 1 } elem =
        UnderSendRes.sent { c1 with
          current_send_receive_delta := c1.current_send_receive_delta + 1,
          dataq := c1.dataq ++ [elem] } := by
      have hu1 : ({ c1 with current_send_receive_delta := c1.current_send_receive_delta + 1 }
          : Chan T).underlying = SenderState.Open := by
        subst hc1
        exact hopen
      have hu2 : ({ c1 with current_send_receive_delta := c1.current_send_receive_delta + 1 }
          : Chan T).recvClosed = false := by
        subst hc1
        exact hrc
      unfold under_send
      rw [hu1, hu2]
      rw [if_neg (by simp), if_pos h3]
    unfold send
    split
    · rename_i c1' evs' heq'
      rw [hfull] at heq'
      injection heq' with hb hc he
      exact Bool.noConfusion hb
    · rename_i c1' evs' heq'
      rw [hfull] at heq'
      injection heq' with hb hc he
      subst hc
      subst he
      rw [if_pos h1, if_pos hble, if_pos h2, hund]
      have hid : c1.channel_id = c.channel_id := by
        subst hc1
        rfl
      rw [show ({ c1 with
          current_send_receive_delta := c1.current_send_receive_delta + 1,
          dataq := c1.dataq ++ [elem] } : Chan T).channel_id = c.channel_id from hid]
    · rename_i k heq'
      rw [hfull] at heq'
      exact Outcome.noConfusion heq'
    · rename_i heq'
      rw [hfull] at heq'
      exact Outcome.noConfusion heq'

theorem claim1_send_witness :
    send (Time.fin 5) (Time.fin 5) ⟨Time.fin 5, (7 : Nat)⟩ (boundedChan Nat 2 0) =
      Outcome.ok (Except.ok ())
        { boundedChan Nat 2 0 with
          current_send_receive_delta := 1,
          dataq := [⟨Time.fin 5, (7 : Nat)⟩],
          send_receive_delta := 1 }
        [Event.Send 0] := by
  have h := claim1_send.2 (Time.fin 5) (Time.fin 5) ⟨Time.fin 5, (7 : Nat)⟩
    (boundedChan Nat 2 0) (boundedChan Nat 2 0) [] rfl rfl (by decide) (by decide)
    (by decide) (by decide) (by decide)
  exact h

/-- C4: `recv` returns exactly the result of the `peek` it performs; when
that result is `Something(elem)` it decrements the shared counter by one
(prior value asserted nonzero), pushes `ack = max(receiver TLB,
elem.time)` onto the response stream (the push is skipped, its error
ignored, when the sender endpoint is gone), and sets the head to
`Unknown`; when the result is `Nothing` or `Closed` it changes no state
beyond what `peek` did; and `peek` never returns `Unknown` to `recv`. -/
theorem claim4_recv :
    (∀ (rtlb sigTime : Time) (c c1 : Chan T) (res : Recv T) (evs : List Event),
      peek rtlb sigTime c = Outcome.ok res c1 evs → res ≠ Recv.Unknown) ∧
    (∀ (rtlb sigTime : Time) (c c1 : Chan T) (e : ChannelElement T) (evs : List Event),
      peek rtlb sigTime c = Outcome.ok (Recv.Something e) c1 evs →
      c1.current_send_receive_delta ≠ 0 →
      c1.senderDropped = false →
      c1.respq.length < c1.capacity →
      recv rtlb sigTime c = Outcome.ok (Recv.Something e)
        { c1 with
          current_send_receive_delta := c1.current_send_receive_delta - 1,
          respq := c1.respq ++ [Time.max rtlb e.time],
          head := Recv.Unknown }
        (evs ++ [Event.Recv c1.channel_id])) ∧
    (∀ (rtlb sigTime : Time) (c c1 : Chan T) (e : ChannelElement T) (evs : List Event),
      peek rtlb sigTime c = Outcome.ok (Recv.Something e) c1 evs →
      c1.current_send_receive_delta ≠ 0 →
      c1.senderDropped = true →
      recv rtlb sigTime c = Outcome.ok (Recv.Something e)
        { c1 with
          current_send_receive_delta := c1.current_send_receive_delta - 1,
          head := Recv.Unknown }
        (evs ++ [Event.Recv c1.channel_id])) ∧
    (∀ (rtlb sigTime : Time) (c c1 : Chan T) (res : Recv T) (evs : List Event),
      peek rtlb sigTime c = Outcome.ok res c1 evs →
      ((∃ t, res = Recv.Nothing t) ∨ res = Recv.Closed) →
      recv rtlb sigTime c = Outcome.ok res c1 (evs ++ [Event.Recv c1.channel_id])) := by
  refine ⟨?_, ?_, ?_, ?_⟩
  · intro rtlb sigTime c c1 res evs h
    exact (peek_ok_char h).2.1
  · intro rtlb sigTime c c1 e evs hpeek hcz hsd hresp
    unfold recv
    split
    · rename_i res1 c1' evs1 heq'
      rw [hpeek] at heq'
      injection heq' with hres hc he
      subst hc
      subst he
      split
      · rename_i e'
        injection hres with he'
        subst he'
        rw [if_neg hcz, if_neg (by simp [hsd]), if_pos hresp]
      · exact Recv.noConfusion hres
      · exact Recv.noConfusion hres
      · exact Recv.noConfusion hres
    · rename_i k heq'
      rw [hpeek] at heq'
      exact Outcome.noConfusion heq'
    · rename_i heq'
      rw [hpeek] at heq'
      exact Outcome.noConfusion heq'
  · intro rtlb sigTime c c1 e evs hpeek hcz hsd
    unfold recv
    split
    · rename_i res1 c1' evs1 heq'
      rw [hpeek] at heq'
      injection heq' with hres hc he
      subst hc
      subst he
      split
      · rename_i e'
        injection hres with he'
        subst he'
        rw [if_neg hcz, if_pos hsd]
      · exact Recv.noConfusion hres
      · exact Recv.noConfusion hres
      · exact Recv.noConfusion hres
    · rename_i k heq'
      rw [hpeek] at heq'
      exact Outcome.noConfusion heq'
    · rename_i heq'
      rw [hpeek] at heq'
      exact Outcome.noConfusion heq'
  · intro rtlb sigTime c c1 res evs hpeek hkind
    unfold recv
    split
    · rename_i res1 c1' evs1 heq'
      rw [hpeek] at heq'
      injection heq' with hres hc he
      subst hc
      subst he
      split
      · rename_i e'
        rcases hkind with ⟨t, ht⟩ | ht <;> rw [ht] at hres <;> exact Recv.noConfusion hres
      · rename_i t'
        rw [hres]
      · rw [hres]
      · rcases hkind with ⟨t, ht⟩ | ht <;> rw [ht] at hres <;> exact Recv.noConfusion hres
    · rename_i k heq'
      rw [hpeek] at heq'
      exact Outcome.noConfusion heq'
    · rename_i heq'
      rw [hpeek] at heq'
      exact Outcome.noConfusion heq'

theorem claim4_recv_witness :
    recv (Time.fin 5) (Time.fin 0)
      { boundedChan Nat 1 0 with
        current_send_receive_delta := 1,
        head := Recv.Something ⟨Time.fin 3, (42 : Nat)⟩ } =
    Outcome.ok (Recv.Something ⟨Time.fin 3, (42 : Nat)⟩)
      { boundedChan Nat 1 0 with
        current_send_receive_delta := 0,
        respq := [Time.fin 5],
        head := Recv.Unknown }
      [Event.Peek 0, Event.Recv 0] := by
  have h := claim4_recv.2.1 (Time.fin 5) (Time.fin 0)
    { boundedChan Nat 1 0 with
      current_send_receive_delta := 1,
      head := Recv.Something ⟨Time.fin 3, (42 : Nat)⟩ }
    { boundedChan Nat 1 0 with
      current_send_receive_delta := 1,
      head := Recv.Something ⟨Time.fin 3, (42 : Nat)⟩ }
    ⟨Time.fin 3, (42 : Nat)⟩ [Event.Peek 0] (by decide) (by decide) (by decide) (by decide)
  exact h

theorem peek_slow {rtlb sigTime : Time} {c : Chan T}
    (h : c.head = Recv.Unknown ∨ ∃ t, c.head = Recv.Nothing t ∧ rtlb.ble t = false) :
    peek rtlb sigTime c = peek_rest rtlb sigTime c [Event.Peek c.channel_id] := by
  unfold peek
  rcases h with h | ⟨t, h, hble⟩
  · rw [h]
  · rw [h]
    simp [hble]

theorem peek_rest_false {rtlb sigTime : Time} {c c1 : Chan T} {evs0 : List Event}
    (h1 : try_update_head (Time.fin 0) c = Outcome.ok false c1 []) :
    peek_rest rtlb sigTime c evs0 =
      if rtlb.ble sigTime = true then
        match try_update_head sigTime c1 with
        | Outcome.ok b c2 evs2 => Outcome.ok c2.head c2 evs0
        | Outcome.panicked k => Outcome.panicked k
        | Outcome.blocked => Outcome.blocked
      else Outcome.panicked PanicKind.assertFail := by
  unfold peek_rest
  split
  · rename_i c1a evs1 heq
    rw [h1] at heq
    injection heq with hb hc he
    exact Bool.noConfusion hb
  · rename_i c1a evs1 heq
    rw [h1] at heq
    injection heq with hb hc he
    subst hc
    rfl
  · rename_i k heq
    rw [h1] at heq
    exact Outcome.noConfusion heq
  · rename_i heq
    rw [h1] at heq
    exact Outcome.noConfusion heq

/-- C5: `peek` returns a cached `Something`/`Closed`, or a cached
`Nothing(t)` whose promise `t ≥ receiver TLB` still holds; otherwise it
performs one non-blocking receive tagged with time 0 and returns its
result when that yields `Something` or `Closed`; otherwise it waits on
`sender_view.wait_until(recv_time)`, asserts the obtained `sig_time ≥
recv_time`, performs a second non-blocking receive tagged `sig_time`,
and returns `Something`, `Nothing(sig_time)`, or `Closed` (empty with
infinite `sig_time` yields `Closed`). -/
theorem claim5_peek :
    (∀ (rtlb sigTime : Time) (c : Chan T) (e : ChannelElement T),
      c.head = Recv.Something e →
      peek rtlb sigTime c = Outcome.ok (Recv.Something e) c [Event.Peek c.channel_id]) ∧
    (∀ (rtlb sigTime : Time) (c : Chan T),
      c.head = Recv.Closed →
      peek rtlb sigTime c = Outcome.ok Recv.Closed c [Event.Peek c.channel_id]) ∧
    (∀ (rtlb sigTime : Time) (c : Chan T) (t : Time),
      c.head = Recv.Nothing t → rtlb.ble t = true →
      peek rtlb sigTime c = Outcome.ok (Recv.Nothing t) c [Event.Peek c.channel_id]) ∧
    (∀ (rtlb sigTime : Time) (c : Chan T) (d : ChannelElement T)
        (rest : List (ChannelElement T)),
      (c.head = Recv.Unknown ∨ ∃ t, c.head = Recv.Nothing t ∧ rtlb.ble t = false) →
      c.recvClosed = false → c.dataq = d :: rest →
      peek rtlb sigTime c = Outcome.ok (Recv.Something d)
        { c with dataq := rest, head := Recv.Something d } [Event.Peek c.channel_id]) ∧
    (∀ (rtlb sigTime : Time) (c : Chan T),
      (c.head = Recv.Unknown ∨ ∃ t, c.head = Recv.Nothing t ∧ rtlb.ble t = false) →
      c.recvClosed = false → c.dataq = [] → c.dataDisc = true →
      peek rtlb sigTime c = Outcome.ok Recv.Closed
        { c with head := Recv.Closed } [Event.Peek c.channel_id]) ∧
    (∀ (rtlb sigTime : Time) (c : Chan T),
      (c.head = Recv.Unknown ∨ ∃ t, c.head = Recv.Nothing t ∧ rtlb.ble t = false) →
      c.recvClosed = false → c.dataq = [] → c.dataDisc = false →
      rtlb.ble sigTime = true → sigTime.isInfinite = false →
      peek rtlb sigTime c = Outcome.ok (Recv.Nothing sigTime)
        { c with head := Recv.Nothing sigTime } [Event.Peek c.channel_id]) ∧
    (∀ (rtlb sigTime : Time) (c : Chan T),
      (c.head = Recv.Unknown ∨ ∃ t, c.head = Recv.Nothing t ∧ rtlb.ble t = false) →
      c.recvClosed = false → c.dataq = [] → c.dataDisc = false →
      rtlb.ble sigTime = true → sigTime.isInfinite = true →
      peek rtlb sigTime c = Outcome.ok Recv.Closed
        { c with head := Recv.Closed } [Event.Peek c.channel_id]) ∧
    (∀ (rtlb sigTime : Time) (c : Chan T),
      (c.head = Recv.Unknown ∨ ∃ t, c.head = Recv.Nothing t ∧ rtlb.ble t = false) →
      c.recvClosed = false → c.dataq = [] → c.dataDisc = false →
      rtlb.ble sigTime = false →
      peek rtlb sigTime c = Outcome.panicked PanicKind.assertFail) := by
  refine ⟨?_, ?_, ?_, ?_, ?_, ?_, ?_, ?_⟩
  · intro rtlb sigTime c e hh
    unfold peek
    rw [hh]
  · intro rtlb sigTime c hh
    unfold peek
    rw [hh]
  · intro rtlb sigTime c t hh hble
    unfold peek
    rw [hh]
    simp [hble]
  · intro rtlb sigTime c d rest hslow hrc hdq
    rw [peek_slow hslow]
    have h1 : try_update_head (Time.fin 0) c =
        Outcome.ok true { c with dataq := rest, head := Recv.Something d } [] := by
      unfold try_update_head
      rw [if_neg (by simp [hrc]), hdq]
    unfold peek_rest
    rw [h1]
  · intro rtlb sigTime c hslow hrc hdq hdisc
    rw [peek_slow hslow]
    have h1 : try_update_head (Time.fin 0) c =
        Outcome.ok true { c with head := Recv.Closed } [] := by
      unfold try_update_head
      rw [if_neg (by simp [hrc]), hdq]
      simp [hdisc]
    unfold peek_rest
    rw [h1]
  · intro rtlb sigTime c hslow hrc hdq hdisc hble hinf
    rw [peek_slow hslow]
    have h1 : try_update_head (Time.fin 0) c =
        Outcome.ok false { c with head := Recv.Nothing (Time.fin 0) } [] := by
      unfold try_update_head
      rw [if_neg (by simp [hrc]), hdq]
      simp [hdisc]
      rfl
    have h2 : try_update_head sigTime ({ c with head := Recv.Nothing (Time.fin 0) } : Chan T) =
        Outcome.ok false { c with head := Recv.Nothing sigTime } [] := by
      unfold try_update_head
      rw [if_neg (by simp [hrc])]
      rw [show ({ c with head := Recv.Nothing (Time.fin 0) } : Chan T).dataq =
        ([] : List (ChannelElement T)) from hdq]
      simp [hdisc, hinf]
    rw [peek_rest_false h1, if_pos hble, h2]
  · intro rtlb sigTime c hslow hrc hdq hdisc hble hinf
    rw [peek_slow hslow]
    have h1 : try_update_head (Time.fin 0) c =
        Outcome.ok false { c with head := Recv.Nothing (Time.fin 0) } [] := by
      unfold try_update_head
      rw [if_neg (by simp [hrc]), hdq]
      simp [hdisc]
      rfl
    have h2 : try_update_head sigTime ({ c with head := Recv.Nothing (Time.fin 0) } : Chan T) =
        Outcome.ok true { c with head := Recv.Closed } [] := by
      unfold try_update_head
      rw [if_neg (by simp [hrc])]
      rw [show ({ c with head := Recv.Nothing (Time.fin 0) } : Chan T).dataq =
        ([] : List (ChannelElement T)) from hdq]
      simp [hdisc, hinf]
    rw [peek_rest_false h1, if_pos hble, h2]
  · intro rtlb sigTime c hslow hrc hdq hdisc hble
    rw [peek_slow hslow]
    have h1 : try_update_head (Time.fin 0) c =
        Outcome.ok false { c with head := Recv.Nothing (Time.fin 0) } [] := by
      unfold try_update_head
      rw [if_neg (by simp [hrc]), hdq]
      simp [hdisc]
      rfl
    rw [peek_rest_false h1, if_neg (by simp [hble])]

theorem claim5_peek_witness :
    peek (Time.fin 7) (Time.fin 9) (boundedChan Nat 2 2) =
      Outcome.ok (Recv.Nothing (Time.fin 9))
        { boundedChan Nat 2 2 with head := Recv.Nothing (Time.fin 9) } [Event.Peek 2] := by
  have h := claim5_peek.2.2.2.2.2.1 (Time.fin 7) (Time.fin 9) (boundedChan Nat 2 2)
    (Or.inl rfl) rfl rfl rfl (by decide) (by decide)
  exact h

/-- From the claim (C6): how many leading response-stream timestamps are
at most `send_time`; each of these is drained and decrements the local
count by one. -/
def drainedCount (send_time : Time) (q : List Time) : Nat :=
  (q.takeWhile (fun t => t.ble send_time)).length

/-- From the claim (C6): the part of the response queue from the first
timestamp later than `send_time` onwards (the stopping timestamp itself,
when present, is consumed into `AvailableAt`). -/
def drainedRest (send_time : Time) (q : List Time) : List Time :=
  q.dropWhile (fun t => t.ble send_time)

/-- From the claim (C6): the final `next_available` — `AvailableAt` of the
first future timestamp, `Never` when the drain ends on a disconnect, and
`Unknown` when an empty read stops it. -/
def drainedNext (send_time : Time) (disc : Bool) (q : List Time) : SendOptions :=
  match drainedRest send_time q with
  | t :: _ => SendOptions.AvailableAt t
  | [] => if disc then SendOptions.Never else SendOptions.Unknown

theorem drainList_eq_spec (st : Time) (disc : Bool) :
    ∀ (q : List Time) (srd : Nat), drainedCount st q ≤ srd →
      drainList st disc q srd =
        some ((drainedRest st q).tail, srd - drainedCount st q, drainedNext st disc q) := by
  intro q
  induction q with
  | nil =>
      intro srd h
      simp [drainList, drainedCount, drainedRest, drainedNext]
  | cons t rest ih =>
      intro srd h
      by_cases hble : t.ble st = true
      · have hc : drainedCount st (t :: rest) = drainedCount st rest + 1 := by
          simp [drainedCount, List.takeWhile_cons, hble]
        have hr : drainedRest st (t :: rest) = drainedRest st rest := by
          simp [drainedRest, List.dropWhile_cons, hble]
        have hn : drainedNext st disc (t :: rest) = drainedNext st disc rest := by
          simp only [drainedNext, hr]
        rw [hc] at h
        have hz : srd ≠ 0 := by omega
        simp only [drainList]
        rw [if_pos hble, if_neg hz, ih (srd - 1) (by omega), hr, hn, hc]
        have harith : srd - 1 - drainedCount st rest = srd - (drainedCount st rest + 1) := by
          omega
        rw [harith]
      · have hc : drainedCount st (t :: rest) = 0 := by
          simp [drainedCount, List.takeWhile_cons, hble]
        have hr : drainedRest st (t :: rest) = t :: rest := by
          simp [drainedRest, List.dropWhile_cons, hble]
        have hn : drainedNext st disc (t :: rest) = SendOptions.AvailableAt t := by
          simp only [drainedNext, hr]
        simp only [drainList]
        rw [if_neg hble, hc, hr, hn]
        simp

theorem update_srd_eq_drain {stlb : Time} {c : Chan T}
    (hassert : c.current_send_receive_delta ≤ c.send_receive_delta)
    (hnb : c.current_send_receive_delta < c.send_receive_delta →
      c.respq ≠ [] ∨ c.respDisc = true) :
    update_srd stlb c =
      match drainList stlb c.respDisc c.respq c.send_receive_delta with
      | none => Outcome.panicked PanicKind.assertFail
      | some (q2, srd2, na2) =>
          Outcome.ok ()
            { c with respq := q2, send_receive_delta := srd2, next_available := na2 } [] := by
  unfold update_srd
  rw [if_pos hassert]
  by_cases hdiff : c.send_receive_delta - c.current_send_receive_delta > 0
  · rw [if_pos hdiff]
    rcases hq : c.respq with _ | ⟨t, rest⟩
    · by_cases hdisc : c.respDisc = true
      · simp [drainList, hdisc]
      · rcases hnb (by omega) with hne | hd
        · exact absurd hq hne
        · exact absurd hd hdisc
    · by_cases hble : t.ble stlb = true
      · by_cases hz : c.send_receive_delta = 0
        · exfalso
          omega
        · simp [drainList, hble, hz]
      · simp [drainList, hble]
  · rw [if_neg hdiff]

/-- C6: in every completing call of `update_srd` with sender TLB
`send_time`, `shared ≤ local` is asserted; `next_available` is reset and
ends as the claim's stopping analysis dictates; every leading timestamp
`≤ send_time` is drained, each decrementing the local count by one; a
later timestamp becomes `AvailableAt` and stops the drain; a disconnect
becomes `Never`; an empty non-blocking read stops with `Unknown`; and
(second conjunct) the call blocks exactly when the blocking receive is
taken — local strictly above shared — with nothing queued and no
disconnect. -/
theorem claim6_update_srd :
    (∀ (stlb : Time) (c : Chan T),
      c.current_send_receive_delta ≤ c.send_receive_delta →
      drainedCount stlb c.respq ≤ c.send_receive_delta →
      (c.current_send_receive_delta < c.send_receive_delta →
        c.respq ≠ [] ∨ c.respDisc = true) →
      update_srd stlb c = Outcome.ok ()
        { c with
          respq := (drainedRest stlb c.respq).tail,
          send_receive_delta := c.send_receive_delta - drainedCount stlb c.respq,
          next_available := drainedNext stlb c.respDisc c.respq } []) ∧
    (∀ (stlb : Time) (c : Chan T),
      c.current_send_receive_delta ≤ c.send_receive_delta →
      (update_srd stlb c = Outcome.blocked ↔
        c.current_send_receive_delta < c.send_receive_delta ∧
        c.respq = [] ∧ c.respDisc = false)) := by
  constructor
  · intro stlb c hassert hk hnb
    rw [update_srd_eq_drain hassert hnb, drainList_eq_spec stlb c.respDisc c.respq
      c.send_receive_delta hk]
  · intro stlb c hassert
    unfold update_srd
    rw [if_pos hassert]
    by_cases hdiff : c.send_receive_delta - c.current_send_receive_delta > 0
    · rw [if_pos hdiff]
      rcases hq : c.respq with _ | ⟨t, rest⟩
      · by_cases hdisc : c.respDisc = true
        · simp [hdisc]
        · simp only [Bool.not_eq_true] at hdisc
          simp [hdisc]
          omega
      · by_cases hble : t.ble stlb = true
        · by_cases hz : c.send_receive_delta = 0
          · simp [hble, hz]
          · rcases hdl : drainList stlb c.respDisc rest (c.send_receive_delta - 1) with
              _ | ⟨q2, srd2, na2⟩
            · simp [hble, hz, hdl]
            · simp [hble, hz, hdl]
        · simp [hble]
    · rw [if_neg hdiff]
      constructor
      · intro hb
        rcases hdl : drainList stlb c.respDisc c.respq c.send_receive_delta with
          _ | ⟨q2, srd2, na2⟩ <;> rw [hdl] at hb <;> simp at hb
      · rintro ⟨hlt, h2, h3⟩
        exfalso
        omega

theorem claim6_update_srd_witness :
    update_srd (Time.fin 10)
      { boundedChan Nat 3 5 with
        send_receive_delta := 3,
        current_send_receive_delta := 1,
        respq := [Time.fin 4, Time.fin 12] } =
    Outcome.ok ()
      { boundedChan Nat 3 5 with
        send_receive_delta := 2,
        current_send_receive_delta := 1,
        respq := [],
        next_available := SendOptions.AvailableAt (Time.fin 12) } [] := by
  have h := claim6_update_srd.1 (Time.fin 10)
    { boundedChan Nat 3 5 with
      send_receive_delta := 3,
      current_send_receive_delta := 1,
      respq := [Time.fin 4, Time.fin 12] }
    (by decide) (by decide) (by decide)
  exact h

theorem update_len_rest_eq {stlb waitT : Time} {c c2 : Chan T} {evs : List Event}
    (hsrd : update_srd stlb c = Outcome.ok () c2 evs) :
    update_len_rest stlb waitT c =
      if c2.send_receive_delta < c2.capacity then Outcome.ok () c2 evs
      else
        match update_srd stlb c2 with
        | Outcome.ok _ c3 evs2 =>
            if c3.next_available = SendOptions.Unknown then
              Outcome.ok () { c3 with next_available := SendOptions.CheckBackAt waitT.add1 }
                (evs ++ evs2)
            else Outcome.ok () c3 (evs ++ evs2)
        | Outcome.panicked k => Outcome.panicked k
        | Outcome.blocked => Outcome.blocked := by
  unfold update_len_rest
  split
  · rename_i u1 c2a evsa heq
    rw [hsrd] at heq
    injection heq with hu hc he
    subst hc
    subst he
    rfl
  · rename_i k heq
    rw [hsrd] at heq
    exact Outcome.noConfusion heq
  · rename_i heq
    rw [hsrd] at heq
    exact Outcome.noConfusion heq

/-- C7: `update_len` first materializes a cached `AvailableAt(t)` promise
when `t ≤ sender TLB` — resetting it to `Unknown` and decrementing the
local count (asserted nonzero) before any draining — and returns
immediately with no other effect when `t` is still in the future;
otherwise it drains via `update_srd`, returns early when below capacity,
and after waiting (`wait_until` yielding `new_time`) and draining again
sets `next_available = CheckBackAt(new_time + 1)` if it is still
`Unknown`. -/
theorem claim7_update_len :
    (∀ (stlb waitT : Time) (c : Chan T) (t : Time),
      c.next_available = SendOptions.AvailableAt t →
      t.ble stlb = true →
      c.send_receive_delta ≠ 0 →
      update_len stlb waitT c = update_len stlb waitT
        { c with
          next_available := SendOptions.Unknown,
          send_receive_delta := c.send_receive_delta - 1 }) ∧
    (∀ (stlb waitT : Time) (c : Chan T) (t : Time),
      c.next_available = SendOptions.AvailableAt t →
      t.ble stlb = false →
      update_len stlb waitT c = Outcome.ok () c []) ∧
    (∀ (stlb waitT : Time) (c c2 : Chan T) (evs : List Event),
      (∀ t, c.next_available ≠ SendOptions.AvailableAt t) →
      update_srd stlb c = Outcome.ok () c2 evs →
      c2.send_receive_delta < c2.capacity →
      update_len stlb waitT c = Outcome.ok () c2 evs) ∧
    (∀ (stlb waitT : Time) (c c2 c3 : Chan T) (evs evs2 : List Event),
      (∀ t, c.next_available ≠ SendOptions.AvailableAt t) →
      update_srd stlb c = Outcome.ok () c2 evs →
      ¬ c2.send_receive_delta < c2.capacity →
      update_srd stlb c2 = Outcome.ok () c3 evs2 →
      update_len stlb waitT c = Outcome.ok ()
        (if c3.next_available = SendOptions.Unknown then
          { c3 with next_available := SendOptions.CheckBackAt waitT.add1 }
        else c3) (evs ++ evs2)) := by
  refine ⟨?_, ?_, ?_, ?_⟩
  · intro stlb waitT c t hna hble hz
    simp [update_len, hna, hble, hz]
  · intro stlb waitT c t hna hble
    simp [update_len, hna, hble]
  · intro stlb waitT c c2 evs hnone hsrd hlt
    have h0 : update_len stlb waitT c = update_len_rest stlb waitT c := by
      rcases hna2 : c.next_available with _ | t | t | _
      · unfold update_len
        rw [hna2]
      · exact absurd hna2 (hnone t)
      · unfold update_len
        rw [hna2]
      · unfold update_len
        rw [hna2]
    rw [h0, update_len_rest_eq hsrd, if_pos hlt]
  · intro stlb waitT c c2 c3 evs evs2 hnone hsrd hge hsrd2
    have h0 : update_len stlb waitT c = update_len_rest stlb waitT c := by
      rcases hna2 : c.next_available with _ | t | t | _
      · unfold update_len
        rw [hna2]
      · exact absurd hna2 (hnone t)
      · unfold update_len
        rw [hna2]
      · unfold update_len
        rw [hna2]
    rw [h0, update_len_rest_eq hsrd, if_neg hge, hsrd2]
    by_cases hu : c3.next_available = SendOptions.Unknown <;> simp [hu]

theorem claim7_update_len_witness :
    update_len (Time.fin 5) (Time.fin 0)
      { boundedChan Nat 2 7 with next_available := SendOptions.AvailableAt (Time.fin 9) } =
    Outcome.ok ()
      { boundedChan Nat 2 7 with next_available := SendOptions.AvailableAt (Time.fin 9) } [] :=
  claim7_update_len.2.1 (Time.fin 5) (Time.fin 0)
    { boundedChan Nat 2 7 with next_available := SendOptions.AvailableAt (Time.fin 9) }
    (Time.fin 9) rfl (by decide)

/-- C3 as stated is false on the code: `Sender::send` performs the
`fetch_add` on the shared `current_send_receive_delta` of its own
`ViewStruct` unconditionally, also for a `Void` sender, so after one
successful void send the counter is 1, not 0; and an element whose time
is below the attached sender TLB trips the time assertion instead of
returning `Ok`. -/
theorem claim3_counterexample :
    (send (Time.fin 0) (Time.fin 0) ⟨Time.fin 0, (0 : Nat)⟩ (voidChan Nat 0) =
      Outcome.ok (Except.ok ())
        { voidChan Nat 0 with current_send_receive_delta := 1, send_receive_delta := 1 }
        [Event.Send 0] ∧
      ({ voidChan Nat 0 with current_send_receive_delta := 1, send_receive_delta := 1 }
        : Chan Nat).current_send_receive_delta ≠ 0) ∧
    send (Time.fin 5) (Time.fin 5) ⟨Time.fin 3, (0 : Nat)⟩ (voidChan Nat 0) =
      Outcome.panicked PanicKind.assertFail := by
  exact ⟨⟨rfl, by decide⟩, rfl⟩

/-- C3 (amended): for a sender created by `void()` with an attached view,
`send` of any element whose time passes the TLB assertion returns `Ok`
without blocking and without emitting a `Len` event; each such send
increments the shared counter and the local delta of its paired
`ViewStruct` by one (so the counter equals the number of sends, rather
than remaining 0). -/
theorem claim3_void_send :
    ∀ (stlb waitT : Time) (e : ChannelElement T) (c : Chan T),
      c.underlying = SenderState.Void →
      c.send_receive_delta < c.capacity →
      c.current_send_receive_delta < c.capacity →
      stlb.ble e.time = true →
      send stlb waitT e c = Outcome.ok (Except.ok ())
        { c with
          current_send_receive_delta := c.current_send_receive_delta + 1,
          send_receive_delta := c.send_receive_delta + 1 }
        [Event.Send c.channel_id] := by
  intro stlb waitT e c hvoid hsrd hcsrd hble
  have hfull : is_full stlb waitT c = Outcome.ok false c [] := by
    unfold is_full
    rw [hvoid]
  have hu : under_send
      { c with current_send_receive_delta := c.current_send_receive_delta + 1 } e =
      UnderSendRes.sent
        { c with current_send_receive_delta := c.current_send_receive_delta + 1 } := by
    unfold under_send
    rw [show ({ c with current_send_receive_delta := c.current_send_receive_delta + 1 }
      : Chan T).underlying = SenderState.Void from hvoid]
  unfold send
  split
  · rename_i c1' evs' heq
    rw [hfull] at heq
    injection heq with hb hc he
    exact Bool.noConfusion hb
  · rename_i c1' evs' heq
    rw [hfull] at heq
    injection heq with hb hc he
    subst hc
    subst he
    rw [if_pos hsrd, if_pos hble, if_pos hcsrd, hu]
    rfl
  · rename_i k heq
    rw [hfull] at heq
    exact Outcome.noConfusion heq
  · rename_i heq
    rw [hfull] at heq
    exact Outcome.noConfusion heq

theorem claim3_void_send_witness :
    send (Time.fin 0) (Time.fin 0) ⟨Time.fin 2, (9 : Nat)⟩ (voidChan Nat 4) =
      Outcome.ok (Except.ok ())
        { voidChan Nat 4 with current_send_receive_delta := 1, send_receive_delta := 1 }
        [Event.Send 4] :=
  claim3_void_send (Time.fin 0) (Time.fin 0) ⟨Time.fin 2, (9 : Nat)⟩ (voidChan Nat 4)
    rfl (by decide) (by decide) (by decide)
